import Mathlib

/-!
Verification model of `converter.py` from the dashcam stitch converter.

The Python program is shallowly embedded: pure functions become Lean
functions, Python exceptions become `Except` error values carrying the
CPython message text, and filesystem / external-process effects become
explicit effect lists or function parameters.  Machine integers are `Int`
and `Nat` (Python integers are unbounded, so no wrap-around modelling is
needed).
-/

deriving instance DecidableEq for Except

namespace Converter

/-! ### Characters and digits -/

/-- Numeric value of an ASCII digit character (`'0'` has code point 48). -/
def dv (c : Char) : Nat := c.toNat - 48

/-- ASCII digit test, matching `\d` of CPython `re` on ASCII input. -/
def isDig (c : Char) : Bool := decide (48 ≤ c.toNat ∧ c.toNat ≤ 57)

/-! ### CPython `_strptime` regular expressions

`datetime.strptime(s, fmt)` compiles each directive to a regex fragment
(`Lib/_strptime.py`, class `TimeRE`):

  `%Y` -> `\d\d\d\d`
  `%m` -> `1[0-2]|0[1-9]|[1-9]`
  `%d` -> `3[01]|[12]\d|0[1-9]|[1-9]`
  `%H` -> `2[0-3]|[0-1]\d|\d`
  `%M` -> `[0-5]\d|\d`
  `%S` -> `6[0-1]|[0-5]\d|\d`

and then uses `format_regex.match` (anchored at the start only, leftmost
alternative preferred, backtracking on failure of the remainder of the
pattern).  The matchers below reproduce exactly this semantics: each
alternative consumes a fixed number of characters, alternatives are tried
in the regex order, and an alternative is abandoned only when the rest of
the pattern cannot match.  Trailing unconsumed input is *not* a match
failure of the regex; it is detected afterwards (`unconverted data
remains`). -/

/-- One regex alternative: consumes a prefix, returns the value and rest. -/
abbrev Alt := List Char → Option (Nat × List Char)

/-- `%Y`: exactly four digits, no alternatives. -/
def matchYear : Alt
  | a :: b :: c :: d :: rest =>
    if isDig a ∧ isDig b ∧ isDig c ∧ isDig d then
      some (1000 * dv a + 100 * dv b + 10 * dv c + dv d, rest)
    else none
  | _ => none

/-- `%m`: `1[0-2]|0[1-9]|[1-9]` (codes: `'0'` = 48, `'1'` = 49, ...). -/
def monthAlts : List Alt :=
  [ fun cs => match cs with
      | a :: b :: rest =>
        if a.toNat = 49 ∧ 48 ≤ b.toNat ∧ b.toNat ≤ 50 then some (10 + dv b, rest) else none
      | _ => none,
    fun cs => match cs with
      | a :: b :: rest =>
        if a.toNat = 48 ∧ 49 ≤ b.toNat ∧ b.toNat ≤ 57 then some (dv b, rest) else none
      | _ => none,
    fun cs => match cs with
      | a :: rest =>
        if 49 ≤ a.toNat ∧ a.toNat ≤ 57 then some (dv a, rest) else none
      | _ => none ]

/-- `%d`: `3[01]|[12]\d|0[1-9]|[1-9]`. -/
def dayAlts : List Alt :=
  [ fun cs => match cs with
      | a :: b :: rest =>
        if a.toNat = 51 ∧ 48 ≤ b.toNat ∧ b.toNat ≤ 49 then some (30 + dv b, rest) else none
      | _ => none,
    fun cs => match cs with
      | a :: b :: rest =>
        if 49 ≤ a.toNat ∧ a.toNat ≤ 50 ∧ isDig b then some (10 * dv a + dv b, rest) else none
      | _ => none,
    fun cs => match cs with
      | a :: b :: rest =>
        if a.toNat = 48 ∧ 49 ≤ b.toNat ∧ b.toNat ≤ 57 then some (dv b, rest) else none
      | _ => none,
    fun cs => match cs with
      | a :: rest =>
        if 49 ≤ a.toNat ∧ a.toNat ≤ 57 then some (dv a, rest) else none
      | _ => none ]

/-- `%H`: `2[0-3]|[0-1]\d|\d`. -/
def hourAlts : List Alt :=
  [ fun cs => match cs with
      | a :: b :: rest =>
        if a.toNat = 50 ∧ 48 ≤ b.toNat ∧ b.toNat ≤ 51 then some (20 + dv b, rest) else none
      | _ => none,
    fun cs => match cs with
      | a :: b :: rest =>
        if 48 ≤ a.toNat ∧ a.toNat ≤ 49 ∧ isDig b then some (10 * dv a + dv b, rest) else none
      | _ => none,
    fun cs => match cs with
      | a :: rest => if isDig a then some (dv a, rest) else none
      | _ => none ]

/-- `%M`: `[0-5]\d|\d`. -/
def minuteAlts : List Alt :=
  [ fun cs => match cs with
      | a :: b :: rest =>
        if 48 ≤ a.toNat ∧ a.toNat ≤ 53 ∧ isDig b then some (10 * dv a + dv b, rest) else none
      | _ => none,
    fun cs => match cs with
      | a :: rest => if isDig a then some (dv a, rest) else none
      | _ => none ]

/-- `%S`: `6[0-1]|[0-5]\d|\d`. -/
def secondAlts : List Alt :=
  [ fun cs => match cs with
      | a :: b :: rest =>
        if a.toNat = 54 ∧ 48 ≤ b.toNat ∧ b.toNat ≤ 49 then some (60 + dv b, rest) else none
      | _ => none,
    fun cs => match cs with
      | a :: b :: rest =>
        if 48 ≤ a.toNat ∧ a.toNat ≤ 53 ∧ isDig b then some (10 * dv a + dv b, rest) else none
      | _ => none,
    fun cs => match cs with
      | a :: rest => if isDig a then some (dv a, rest) else none
      | _ => none ]

/-- First alternative that matches, regex leftmost preference (used for
the final group of a pattern, where nothing follows that could fail). -/
def firstAlt (alts : List Alt) (cs : List Char) : Option (Nat × List Char) :=
  match alts with
  | [] => none
  | a :: rest =>
    match a cs with
    | some r => some r
    | none => firstAlt rest cs

/-- Try `alts` in order; a locally matching alternative is abandoned
(backtracking) when the continuation `k` fails on the remainder. -/
def matchThen (alts : List Alt) (k : List Char → Option (Nat × List Char))
    (cs : List Char) : Option (Nat × Nat × List Char) :=
  match alts with
  | [] => none
  | a :: rest =>
    match a cs with
    | some (v, cs') =>
      match k cs' with
      | some (w, cs'') => some (v, w, cs'')
      | none => matchThen rest k cs
    | none => matchThen rest k cs

/-- Like `matchThen` but with a two-value continuation. -/
def matchThen2 (alts : List Alt) (k : List Char → Option (Nat × Nat × List Char))
    (cs : List Char) : Option (Nat × Nat × Nat × List Char) :=
  match alts with
  | [] => none
  | a :: rest =>
    match a cs with
    | some (v, cs') =>
      match k cs' with
      | some (w, x, cs'') => some (v, w, x, cs'')
      | none => matchThen2 rest k cs
    | none => matchThen2 rest k cs

/-- The full `%Y%m%d` pattern (year has a single alternative, so no
backtracking into it can occur). -/
def matchYMD (cs : List Char) : Option (Nat × Nat × Nat × List Char) :=
  match matchYear cs with
  | none => none
  | some (y, cs') =>
    match matchThen monthAlts (firstAlt dayAlts) cs' with
    | none => none
    | some (m, d, rest) => some (y, m, d, rest)

/-- The full `%H%M%S` pattern. -/
def matchHMS (cs : List Char) : Option (Nat × Nat × Nat × List Char) :=
  matchThen2 hourAlts (matchThen minuteAlts (firstAlt secondAlts)) cs

/-! ### Errors raised during parsing (CPython message texts) -/

/-- The `ValueError`s a `VideoFileInfo.from_path` call can raise.  None of
the constructors records the path being parsed: the CPython exceptions
only carry the texts produced by `ParseErr.message`. -/
inductive ParseErr where
  | notEnoughValues (got : Nat)
  | tooManyValues
  | invalidIntLiteral (lit : String)
  | timeDataMismatch (data fmt : String)
  | unconvertedData (rest : String)
  | yearOutOfRange (y : Nat)
  | dayOutOfRange
  | secondOutOfRange
  | invalidVideoType (v : String)
  | invalidPosition (v : String)
deriving DecidableEq

/-- ASCII single quote, used by several CPython error messages. -/
def sq : String := "\x27"

/-- The `str()` of the corresponding CPython exception. -/
def ParseErr.message : ParseErr → String
  | .notEnoughValues got =>
      "not enough values to unpack (expected 5, got " ++ toString got ++ ")"
  | .tooManyValues => "too many values to unpack (expected 5)"
  | .invalidIntLiteral lit =>
      "invalid literal for int() with base 10: " ++ sq ++ lit ++ sq
  | .timeDataMismatch data fmt =>
      "time data " ++ sq ++ data ++ sq ++ " does not match format " ++ sq ++ fmt ++ sq
  | .unconvertedData rest => "unconverted data remains: " ++ rest
  | .yearOutOfRange y => "year " ++ toString y ++ " is out of range"
  | .dayOutOfRange => "day is out of range for month"
  | .secondOutOfRange => "second must be in 0..59"
  | .invalidVideoType v => sq ++ v ++ sq ++ " is not a valid VideoType"
  | .invalidPosition v => sq ++ v ++ sq ++ " is not a valid Position"

/-! ### `datetime.strptime` and the `datetime`/`time` constructors -/

/-- Gregorian leap year rule used by `datetime`. -/
def isLeapYear (y : Nat) : Bool := y % 4 = 0 && (y % 100 != 0 || y % 400 = 0)

/-- `datetime`'s days-in-month table. -/
def daysInMonth (y m : Nat) : Nat :=
  if m = 2 then (if isLeapYear y then 29 else 28)
  else if m = 4 ∨ m = 6 ∨ m = 9 ∨ m = 11 then 30
  else 31

/-- `datetime.strptime(s, "%Y%m%d")` followed by the `datetime.date`
constructor checks (year ≥ 1 first, then day vs. month length; the month
is in 1..12 and the day in 1..31 by construction of the regex). -/
def strptimeDate (s : String) : Except ParseErr (Nat × Nat × Nat) :=
  match matchYMD s.toList with
  | none => .error (.timeDataMismatch s "%Y%m%d")
  | some (y, m, d, rest) =>
    if !rest.isEmpty then .error (.unconvertedData (String.mk rest))
    else if y = 0 then .error (.yearOutOfRange y)
    else if d > daysInMonth y m then .error .dayOutOfRange
    else .ok (y, m, d)

/-- `datetime.strptime(s, "%H%M%S").time()`: the regex admits seconds up
to 61, but the `time` constructor rejects 60 and 61. -/
def strptimeTime (s : String) : Except ParseErr (Nat × Nat × Nat) :=
  match matchHMS s.toList with
  | none => .error (.timeDataMismatch s "%H%M%S")
  | some (h, m, sec, rest) =>
    if !rest.isEmpty then .error (.unconvertedData (String.mk rest))
    else if sec ≥ 60 then .error .secondOutOfRange
    else .ok (h, m, sec)

/-! ### `int()` -/

/-- ASCII whitespace stripped by `int()` (the model is restricted to
ASCII: non-ASCII whitespace and digits, and `_` digit separators, cannot
occur in an underscore-split token fed to `int` by `from_path`). -/
def isPyWs (c : Char) : Bool :=
  decide (c.toNat = 32 ∨ c.toNat = 9 ∨ c.toNat = 10 ∨ c.toNat = 13 ∨ c.toNat = 11 ∨ c.toNat = 12)

/-- Value of a digit string, most significant digit first. -/
def digitsVal (ds : List Char) : Nat := ds.foldl (fun acc c => 10 * acc + dv c) 0

/-- CPython `int(s)` on an ASCII string: strip whitespace, optional single
sign, then a nonempty run of digits; anything else raises `ValueError`
with the original literal in the message. -/
def intParse (s : String) : Except ParseErr Int :=
  let t := ((s.toList.dropWhile isPyWs).reverse.dropWhile isPyWs).reverse
  match t with
  | [] => .error (.invalidIntLiteral s)
  | c :: rest =>
    let signDigits : Int × List Char :=
      if c = '+' then (1, rest) else if c = '-' then (-1, rest) else (1, t)
    if signDigits.2.isEmpty ∨ ¬ signDigits.2.all isDig then
      .error (.invalidIntLiteral s)
    else
      .ok (signDigits.1 * (digitsVal signDigits.2 : Int))

/-! ### Enums, records, `Path.stem` -/

/-- `class VideoType(enum.Enum)`: NORMAL = 'N', EVENT = 'E', PARKING = 'P'. -/
inductive VideoType where
  | normal
  | event
  | parking
deriving DecidableEq

/-- `VideoType(value)`: lookup by enum value, `ValueError` otherwise. -/
def VideoType.ofValue (s : String) : Except ParseErr VideoType :=
  if s = "N" then .ok .normal
  else if s = "E" then .ok .event
  else if s = "P" then .ok .parking
  else .error (.invalidVideoType s)

/-- `class Position(enum.Enum)`: FRONT = 'A', INTERNAL = 'B', REAR = 'C'. -/
inductive Position where
  | front
  | internal
  | rear
deriving DecidableEq

deriving instance Fintype for Position

/-- `Position(value)`: lookup by enum value, `ValueError` otherwise. -/
def Position.ofValue (s : String) : Except ParseErr Position :=
  if s = "A" then .ok .front
  else if s = "B" then .ok .internal
  else if s = "C" then .ok .rear
  else .error (.invalidPosition s)

/-- `datetime.combine(date, time)`: a date-time with second precision. -/
structure DateTime where
  year : Nat
  month : Nat
  day : Nat
  hour : Nat
  minute : Nat
  second : Nat
deriving DecidableEq

/-- `@dataclass class VideoFileInfo`; paths are represented as strings. -/
structure VideoFileInfo where
  ts : DateTime
  id : Int
  videoType : VideoType
  position : Position
  file : String
deriving DecidableEq

/-- `PurePath.name`: the final path component. -/
def pathName (p : String) : String :=
  String.mk ((p.toList.reverse.takeWhile (fun c => c ≠ '/')).reverse)

/-- `PurePath.stem`: the name with its suffix removed; pathlib recognises
a suffix only when the last dot index `i` satisfies `0 < i < len - 1`. -/
def pathStem (p : String) : String :=
  let name := (pathName p).toList
  match name.reverse.findIdx? (fun c => c = '.') with
  | none => String.mk name
  | some r =>
    let i := name.length - 1 - r
    if 0 < i ∧ i < name.length - 1 then String.mk (name.take i) else String.mk name

/-- Python `str.split` on a single-character separator (`"".split(sep)`
is `[""]`, and consecutive separators produce empty tokens). -/
def splitChar (sep : Char) : List Char → List (List Char)
  | [] => [[]]
  | c :: rest =>
    match splitChar sep rest with
    | [] => [[]]
    | t :: ts => if c = sep then [] :: t :: ts else (c :: t) :: ts

/-- `stem.split("_")`. -/
def splitTokens (stem : String) : List String :=
  (splitChar '_' stem.toList).map String.mk

/-- The stem-dependent core of `VideoFileInfo.from_path` (converter.py
lines 35-48): split the stem on `_` into exactly five tokens, then
`int`, `strptime` date, `strptime` time, and the two enum constructors,
in the program's evaluation order. -/
def parseStem (stem : String) : Except ParseErr (DateTime × Int × VideoType × Position) :=
  match splitTokens stem with
  | [dateTok, timeTok, pkTok, vtTok, posTok] =>
    match intParse pkTok with
    | .error e => .error e
    | .ok pk =>
      match strptimeDate dateTok with
      | .error e => .error e
      | .ok (y, mo, d) =>
        match strptimeTime timeTok with
        | .error e => .error e
        | .ok (h, mi, s) =>
          match VideoType.ofValue vtTok with
          | .error e => .error e
          | .ok vt =>
            match Position.ofValue posTok with
            | .error e => .error e
            | .ok pos => .ok (⟨y, mo, d, h, mi, s⟩, pk, vt, pos)
  | toks =>
    if toks.length < 5 then .error (.notEnoughValues toks.length)
    else .error .tooManyValues

/-- `VideoFileInfo.from_path`: parse the stem and attach the path. -/
def fromPath (path : String) : Except ParseErr VideoFileInfo :=
  (parseStem (pathStem path)).map (fun r => ⟨r.1, r.2.1, r.2.2.1, r.2.2.2, path⟩)

/-! ### Grouping (`parse_files`, converter.py lines 61-77) -/

/-- `@dataclass class FileGroup`. -/
structure FileGroup where
  ts : DateTime
  pk : Int
  files : List VideoFileInfo
deriving DecidableEq

/-- Whether `needle` occurs at the start of `hay`. -/
def startsWithChars : List Char → List Char → Bool
  | [], _ => true
  | _ :: _, [] => false
  | a :: as, b :: bs => a == b && startsWithChars as bs

/-- Whether `needle` occurs anywhere inside `hay`. -/
def occursInChars (needle : List Char) : List Char → Bool
  | [] => needle.isEmpty
  | c :: rest => startsWithChars needle (c :: rest) || occursInChars needle rest

/-- Whether the string `needle` is a substring of `hay`. -/
def occursIn (needle hay : String) : Bool :=
  occursInChars needle.toList hay.toList

/-- `source.glob("*.mp4", case_sensitive=False)` membership test: the
final extension matches `.mp4` in any case, and glob never matches
hidden files (names starting with a dot). -/
def globMp4 (name : String) : Bool :=
  (match name.toList with
   | [] => false
   | c :: _ => !(c == '.')) &&
  startsWithChars ['4', 'p', 'm', '.'] ((name.toList.map Char.toLower).reverse)

/-- Code-point lexicographic `≤` on char lists: how CPython compares two
`str`s (and two same-directory `Path`s, whose parts share a prefix). -/
def charListLe : List Char → List Char → Bool
  | [], _ => true
  | _ :: _, [] => false
  | a :: as, b :: bs =>
    if a.toNat < b.toNat then true
    else if b.toNat < a.toNat then false
    else charListLe as bs

/-- String comparison used by `sorted(files)`. -/
def strLe (a b : String) : Prop := charListLe a.toList b.toList = true

instance : DecidableRel strLe := fun a b =>
  inferInstanceAs (Decidable (charListLe a.toList b.toList = true))

/-- One step of `groups[vf.id].append(vf)` on a `defaultdict(list)`
represented as an association list in key-insertion order. -/
def bucketAdd (acc : List (Int × List VideoFileInfo)) (v : VideoFileInfo) :
    List (Int × List VideoFileInfo) :=
  match acc with
  | [] => [(v.id, [v])]
  | (k, fs) :: rest =>
    if k = v.id then (k, fs ++ [v]) :: rest else (k, fs) :: bucketAdd rest v

/-- `FileGroup(files[0].ts, pk, files)`: buckets are never empty, so the
empty case (Python would raise `IndexError`) is unreachable. -/
def mkFileGroup : Int × List VideoFileInfo → FileGroup
  | (pk, f :: fs) => ⟨f.ts, pk, f :: fs⟩
  | (pk, []) => ⟨⟨0, 0, 0, 0, 0, 0⟩, pk, []⟩

/-- The `for file in sorted(files): VideoFileInfo.from_path(file)` loop:
the first `ValueError` aborts the whole scan. -/
def parseSorted : List String → Except ParseErr (List VideoFileInfo)
  | [] => .ok []
  | f :: rest =>
    match fromPath f with
    | .error e => .error e
    | .ok v =>
      match parseSorted rest with
      | .error e => .error e
      | .ok vs => .ok (v :: vs)

/-- `parse_files(source)`: the directory is represented by the list of
its file names; `sorted` on same-directory `Path`s compares the name
strings by code point, modelled by a stable sort with `String`'s order;
`file_groups.sort(key=lambda fg: fg.pk)` is the final stable sort. -/
def parseFiles (names : List String) : Except ParseErr (List FileGroup) :=
  match parseSorted (List.insertionSort strLe (names.filter globMp4)) with
  | .error e => .error e
  | .ok infos =>
    .ok (List.insertionSort (fun a b => a.pk ≤ b.pk)
      ((infos.foldl bucketAdd []).map mkFileGroup))

/-! ### Stitching one group (`stitch_group`, lines 80-96) -/

/-- Runtime errors of the stitch path: the bare `StopIteration` raised by
`next()` on an exhausted generator, or an external-engine failure. -/
inductive PyErr where
  | stopIteration
  | engine (msg : String)
deriving DecidableEq

/-- The `str()` of the exception: `str(StopIteration())` is empty. -/
def PyErr.message : PyErr → String
  | .stopIteration => ""
  | .engine m => m

/-- `FileGroup.get_by_position`: `next(file for file in self.files if
file.position == position)` returns the first match or raises a bare
`StopIteration`. -/
def FileGroup.getByPosition (g : FileGroup) (pos : Position) : Except PyErr VideoFileInfo :=
  match g.files.find? (fun f => f.position == pos) with
  | some f => .ok f
  | none => .error .stopIteration

/-- Observable filesystem/process effects of a stitch job. -/
inductive Effect where
  | mkdirOut
  | runEngine (output : String)
  | writeFile (path : String)
deriving DecidableEq

/-- `stitch_group(group)`.  The filesystem and the media engine are
parameters: `outDirExists` is whether `./out` already exists and
`engine out` is the outcome of `ffmpeg.output(...).run(...)` writing
`out`.  Position lookups happen before any effect, so a missing position
aborts with an empty effect trace; the output file is recorded as
written only when the engine run succeeds. -/
def stitchGroup (g : FileGroup) (outDirExists : Bool)
    (engine : String → Except String Unit) : List Effect × Except PyErr String :=
  match g.getByPosition .front with
  | .error e => ([], .error e)
  | .ok _front =>
    match g.getByPosition .internal with
    | .error e => ([], .error e)
    | .ok _internal =>
      match g.getByPosition .rear with
      | .error e => ([], .error e)
      | .ok _rear =>
        let outputFile := "./out/output_" ++ toString g.pk ++ ".mp4"
        let dirEffs := if outDirExists then [] else [Effect.mkdirOut]
        match engine outputFile with
        | .ok _ => (dirEffs ++ [.runEngine outputFile, .writeFile outputFile], .ok outputFile)
        | .error m => (dirEffs ++ [.runEngine outputFile], .error (.engine m))

/-! ### Python `repr` of the dataclasses (for the orchestrator's log line) -/

/-- `repr(datetime.datetime(...))`: a zero seconds field is omitted. -/
def pyReprDateTime (d : DateTime) : String :=
  "datetime.datetime(" ++ toString d.year ++ ", " ++ toString d.month ++ ", " ++
    toString d.day ++ ", " ++ toString d.hour ++ ", " ++ toString d.minute ++
    (if d.second = 0 then "" else ", " ++ toString d.second) ++ ")"

/-- `repr` of a `VideoType` member. -/
def pyReprVideoType : VideoType → String
  | .normal => "<VideoType.NORMAL: " ++ sq ++ "N" ++ sq ++ ">"
  | .event => "<VideoType.EVENT: " ++ sq ++ "E" ++ sq ++ ">"
  | .parking => "<VideoType.PARKING: " ++ sq ++ "P" ++ sq ++ ">"

/-- `repr` of a `Position` member. -/
def pyReprPosition : Position → String
  | .front => "<Position.FRONT: " ++ sq ++ "A" ++ sq ++ ">"
  | .internal => "<Position.INTERNAL: " ++ sq ++ "B" ++ sq ++ ">"
  | .rear => "<Position.REAR: " ++ sq ++ "C" ++ sq ++ ">"

/-- Dataclass `repr` of a `VideoFileInfo`. -/
def pyReprInfo (v : VideoFileInfo) : String :=
  "VideoFileInfo(ts=" ++ pyReprDateTime v.ts ++ ", id=" ++ toString v.id ++
    ", video_type=" ++ pyReprVideoType v.videoType ++ ", position=" ++
    pyReprPosition v.position ++ ", file=PosixPath(" ++ sq ++ v.file ++ sq ++ "))"

/-- Dataclass `repr` of a `FileGroup`. -/
def pyReprFileGroup (g : FileGroup) : String :=
  "FileGroup(ts=" ++ pyReprDateTime g.ts ++ ", pk=" ++ toString g.pk ++
    ", files=[" ++ String.intercalate ", " (g.files.map pyReprInfo) ++ "])"

/-- The `print(f"Error stitching group {group}: {e}")` line. -/
def stitchLogLine (g : FileGroup) (e : PyErr) : String :=
  "Error stitching group " ++ pyReprFileGroup g ++ ": " ++ e.message

/-! ### The orchestrator (`stitch_all`, lines 99-111)

`stitch_all` is a generator: it submits every group to a
`ThreadPoolExecutor`, leaves the `with` block (which joins the pool, so
every job has completed), then yields `(group, future.result())` pairs in
submission order; the first failing `future.result()` is logged and
re-raised, aborting the generator.  A job's outcome is a pure function
of its group (`stitch_group` with its environment), so it is a `job`
parameter here; the pool only affects *when* jobs run, which is made
explicit below by a completion schedule. -/

/-- What a run of `stitch_all` produces: the pairs actually yielded and,
when a job failed, the printed log line together with the exception
object that was re-raised. -/
structure StitchAllOutcome where
  yielded : List (FileGroup × String)
  failure : Option (String × PyErr)
deriving DecidableEq

/-- The result-draining loop: yield until the first error, which is
logged and re-raised unchanged; the remaining futures are not consumed. -/
def drainResults : List (FileGroup × Except PyErr String) → StitchAllOutcome
  | [] => ⟨[], none⟩
  | (g, .ok out) :: rest =>
    let r := drainResults rest
    ⟨(g, out) :: r.yielded, r.failure⟩
  | (g, .error e) :: _rest => ⟨[], some (stitchLogLine g e, e)⟩

/-- `stitch_all(groups, max_workers)`: `ThreadPoolExecutor` raises
`ValueError` for `max_workers <= 0`; otherwise every group's future
resolves to its job outcome and the futures are drained in submission
order. -/
def stitchAll (job : FileGroup → Except PyErr String) (groups : List FileGroup)
    (maxWorkers : Nat) : Except String StitchAllOutcome :=
  if maxWorkers = 0 then .error "max_workers must be greater than 0"
  else .ok (drainResults (groups.map (fun g => (g, job g))))

/-- The pool's completion store: jobs run in the order given by the
schedule `sched` (a permutation of the submission indices), each storing
its outcome under its submission index. -/
def completeJobs (job : FileGroup → Except PyErr String) (groups : List FileGroup)
    (sched : List Nat) : List (Nat × Except PyErr String) :=
  sched.filterMap (fun i => (groups.get? i).map (fun g => (i, job g)))

/-- `future.result()` for each submitted group, in submission order;
`none` models a drain that would block forever on a never-completed
future (impossible when the schedule covers every index). -/
def collectFutures (store : List (Nat × Except PyErr String))
    (groups : List FileGroup) : Option (List (FileGroup × Except PyErr String)) :=
  groups.enum.mapM (fun p => (store.lookup p.1).map (fun r => (p.2, r)))

/-- `stitch_all` with the pool's completion order made explicit. -/
def stitchAllSched (job : FileGroup → Except PyErr String) (groups : List FileGroup)
    (maxWorkers : Nat) (sched : List Nat) : Option (Except String StitchAllOutcome) :=
  if maxWorkers = 0 then some (.error "max_workers must be greater than 0")
  else (collectFutures (completeJobs job groups sched) groups).map
    (fun rs => .ok (drainResults rs))

/-! ### Concatenation (`create_file_list` / `combine_clips`, lines 114-133) -/

/-- Observable effects of `combine_clips`. -/
inductive ConcatEff where
  | writeManifest (lines : List String)
  | runConcat (manifest : String) (finalOutput : String)
  | printError (msg : String)
  | unlinkManifest
deriving DecidableEq

/-- `create_file_list`: one `file '<absolute path>'` line per input. -/
def manifestLines (absolutize : String → String) (filePaths : List String) : List String :=
  filePaths.map (fun p => "file " ++ sq ++ absolutize p ++ sq)

/-- `combine_clips(output_files, final_output_file)`: write the manifest,
run `ffmpeg -f concat` on it inside `try`, print and re-raise on
failure, and unlink the manifest in `finally` — on both paths.
`absolutize` models `Path.absolute()` (it needs the working directory)
and `runOutcome` the `subprocess.run(..., check=True)` call. -/
def combineClips (outputFiles : List String) (finalOutputFile : String)
    (absolutize : String → String) (runOutcome : Except String Unit) :
    List ConcatEff × Option String :=
  let w := ConcatEff.writeManifest (manifestLines absolutize outputFiles)
  let r := ConcatEff.runConcat "file_list.txt" finalOutputFile
  match runOutcome with
  | .ok _ => ([w, r, .unlinkManifest], none)
  | .error e =>
    ([w, r, .printError ("Error combining clips: " ++ e), .unlinkManifest], some e)

/-! ### The spec's strict filename schema (section 4.1 of the spec)

These definitions follow the specification's words, not the code: the
stem must split into exactly five underscore tokens `YYYYMMDD`,
`HHMMSS`, integer group id, one of `{N,E,P}`, one of `{A,B,C}`.  They
exist to be compared against the code's parser. -/

/-- Exactly eight digits spelling a valid Gregorian date, `YYYYMMDD`. -/
def isStrictDate (s : String) : Bool :=
  match s.toList with
  | [a, b, c, d, m1, m2, d1, d2] =>
    isDig a && isDig b && isDig c && isDig d && isDig m1 && isDig m2 &&
      isDig d1 && isDig d2 &&
      (let y := 1000 * dv a + 100 * dv b + 10 * dv c + dv d
       let m := 10 * dv m1 + dv m2
       let dd := 10 * dv d1 + dv d2
       decide (1 ≤ y ∧ 1 ≤ m ∧ m ≤ 12 ∧ 1 ≤ dd ∧ dd ≤ daysInMonth y m))
  | _ => false

/-- Exactly six digits spelling a valid time of day, `HHMMSS`. -/
def isStrictTime (s : String) : Bool :=
  match s.toList with
  | [h1, h2, m1, m2, s1, s2] =>
    isDig h1 && isDig h2 && isDig m1 && isDig m2 && isDig s1 && isDig s2 &&
      (let h := 10 * dv h1 + dv h2
       let mi := 10 * dv m1 + dv m2
       let sec := 10 * dv s1 + dv s2
       decide (h ≤ 23 ∧ mi ≤ 59 ∧ sec ≤ 59))
  | _ => false

/-- A nonempty run of decimal digits (an unsigned integer group id). -/
def isStrictGroupId (s : String) : Bool :=
  !s.toList.isEmpty && s.toList.all isDig

/-- The five-token schema `{date}_{time}_{groupid}_{type}_{position}`. -/
def strictSchemaValid (stem : String) : Bool :=
  match splitTokens stem with
  | [d, t, g, vt, pos] =>
    isStrictDate d && isStrictTime t && isStrictGroupId g &&
      (vt == "N" || vt == "E" || vt == "P") &&
      (pos == "A" || pos == "B" || pos == "C")
  | _ => false

/-! ## Helper lemmas -/

theorem except_isOk_iff {ε α : Type} (e : Except ε α) :
    e.isOk = true ↔ ∃ a, e = .ok a := by
  cases e <;> simp [Except.isOk, Except.toBool]

theorem except_isOk_false_iff {ε α : Type} (e : Except ε α) :
    e.isOk = false ↔ ∃ x, e = .error x := by
  cases e <;> simp [Except.isOk, Except.toBool]

/-- A `getByPosition` failure is always the bare `StopIteration`. -/
theorem getByPosition_error {g : FileGroup} {pos : Position} {e : PyErr}
    (h : g.getByPosition pos = .error e) : e = .stopIteration := by
  unfold FileGroup.getByPosition at h
  cases hf : g.files.find? (fun f => f.position == pos) <;> rw [hf] at h
  · exact (Except.error.injEq _ _).mp h |>.symm
  · cases h

/-- A group without the requested position has no lookup result. -/
theorem getByPosition_eq_error {g : FileGroup} {pos : Position}
    (h : ∀ f ∈ g.files, f.position ≠ pos) :
    g.getByPosition pos = .error .stopIteration := by
  unfold FileGroup.getByPosition
  have hf : g.files.find? (fun f => f.position == pos) = none := by
    apply List.find?_eq_none.mpr
    intro f hfm
    simpa using h f hfm
  rw [hf]

/-! ## C7: parsing the canonical example filename -/

/-- C7: parsing the path `20240703_131044_0417_N_A.MP4` yields timestamp
2024-07-03 13:10:44, group id 417, recording type Normal, position
Front. -/
theorem C7_parse_canonical_example :
    fromPath "20240703_131044_0417_N_A.MP4" =
      .ok ⟨⟨2024, 7, 3, 13, 10, 44⟩, 417, .normal, .front,
        "20240703_131044_0417_N_A.MP4"⟩ := by
  decide

/-! ## C8: the concatenation manifest is always deleted -/

/-- C8: for every input list and every outcome of the external
concatenation invocation, `combine_clips` deletes its temporary manifest
file after running the engine: the unlink is the final effect on the
success path and on the failure path alike, and a failure is re-raised
(reported in the second component) rather than swallowed. -/
theorem C8_manifest_always_deleted (outputFiles : List String) (finalOut : String)
    (absolutize : String → String) (runOutcome : Except String Unit) :
    (combineClips outputFiles finalOut absolutize runOutcome).1.getLast? =
        some .unlinkManifest ∧
      ConcatEff.runConcat "file_list.txt" finalOut ∈
        (combineClips outputFiles finalOut absolutize runOutcome).1 ∧
      (combineClips outputFiles finalOut absolutize runOutcome).2 =
        runOutcome.toOption.elim (some (match runOutcome with
          | .error e => e
          | .ok _ => "")) (fun _ => none) := by
  cases runOutcome <;> simp [combineClips, Except.toOption]

/-! ## C5: a group with no Rear file -/

/-- C5 (amended): a group with no file at the Rear position makes
`stitch_group` fail before any filesystem effect: the effect trace is
empty (no output file is written) and the raised error is the bare
`StopIteration` produced by `next()`, which carries no message at all —
in particular it does not name "Rear" or the group id. -/
theorem C5_missing_rear_fails (g : FileGroup)
    (hre : ∀ f ∈ g.files, f.position ≠ Position.rear)
    (outDirExists : Bool) (engine : String → Except String Unit) :
    stitchGroup g outDirExists engine = ([], .error .stopIteration) ∧
      PyErr.message .stopIteration = "" := by
  refine ⟨?_, rfl⟩
  have hrear := getByPosition_eq_error hre
  unfold stitchGroup
  cases hfront : g.getByPosition .front with
  | error e => rw [getByPosition_error hfront]
  | ok vf =>
    cases hint : g.getByPosition .internal with
    | error e => rw [getByPosition_error hint]
    | ok vi => rw [hrear]

/-- Concrete group 417 with Front and Internal files but no Rear file. -/
def groupNoRear : FileGroup :=
  ⟨⟨2024, 7, 3, 13, 10, 44⟩, 417,
    [⟨⟨2024, 7, 3, 13, 10, 44⟩, 417, .normal, .front, "a.mp4"⟩,
     ⟨⟨2024, 7, 3, 13, 10, 44⟩, 417, .normal, .internal, "b.mp4"⟩]⟩

/-- C5 witness: the amended theorem applied to `groupNoRear`. -/
theorem C5_missing_rear_fails_witness :
    stitchGroup groupNoRear true (fun _ => .ok ()) = ([], .error .stopIteration) ∧
      PyErr.message .stopIteration = "" :=
  C5_missing_rear_fails groupNoRear (by decide) true (fun _ => .ok ())

/-- C5 counterexample to the claim as stated: on the concrete group 417
missing its Rear file, `stitch_group` does fail without writing output,
but the error it raises stringifies to the empty message, which names
neither "Rear" nor the group id 417. -/
theorem C5_counterexample :
    (stitchGroup groupNoRear true (fun _ => .ok ())).2 = .error .stopIteration ∧
      (stitchGroup groupNoRear true (fun _ => .ok ())).1 = [] ∧
      PyErr.message .stopIteration = "" ∧
      occursIn "Rear" (PyErr.message .stopIteration) = false ∧
      occursIn "417" (PyErr.message .stopIteration) = false := by
  decide

/-! ## Grouping lemmas -/

/-- A successful scan parsed every file. -/
theorem parseSorted_ok_forall {l : List String} {infos : List VideoFileInfo}
    (h : parseSorted l = .ok infos) : ∀ x ∈ l, ∃ v, fromPath x = .ok v := by
  induction l generalizing infos with
  | nil => intro x hx; cases hx
  | cons f rest ih =>
    intro x hx
    unfold parseSorted at h
    cases hf : fromPath f with
    | error e => rw [hf] at h; cases h
    | ok v =>
      rw [hf] at h
      cases hr : parseSorted rest with
      | error e => rw [hr] at h; cases h
      | ok vs =>
        rcases List.mem_cons.mp hx with hx | hx
        · exact ⟨v, hx ▸ hf⟩
        · exact ih hr x hx

/-- Keys after one `bucketAdd`: unchanged if the id is known, appended
otherwise. -/
theorem bucketAdd_keys (acc : List (Int × List VideoFileInfo)) (v : VideoFileInfo) :
    (bucketAdd acc v).map Prod.fst =
      if v.id ∈ acc.map Prod.fst then acc.map Prod.fst
      else acc.map Prod.fst ++ [v.id] := by
  induction acc with
  | nil => simp [bucketAdd]
  | cons p rest ih =>
    obtain ⟨k, fs⟩ := p
    by_cases hk : k = v.id
    · subst hk
      simp [bucketAdd]
    · by_cases hmem : v.id ∈ rest.map Prod.fst
      · have h1 : v.id ∈ ((k, fs) :: rest).map Prod.fst := by
          simp only [List.map_cons]
          exact List.mem_cons_of_mem _ hmem
        rw [if_pos h1]
        simp only [bucketAdd, if_neg hk, List.map_cons, ih, if_pos hmem]
      · have h1 : v.id ∉ ((k, fs) :: rest).map Prod.fst := by
          simp only [List.map_cons]
          intro hc
          rcases List.mem_cons.mp hc with hc | hc
          · exact hk hc.symm
          · exact hmem hc
        rw [if_neg h1]
        simp only [bucketAdd, if_neg hk, List.map_cons, ih, if_neg hmem]
        simp

/-- Where an entry of `bucketAdd acc v` comes from (keys of `acc` must be
distinct, which the fold below maintains). -/
theorem bucketAdd_mem {acc : List (Int × List VideoFileInfo)} {v : VideoFileInfo}
    (hnd : (acc.map Prod.fst).Nodup) {p : Int × List VideoFileInfo}
    (hp : p ∈ bucketAdd acc v) :
    (p ∈ acc ∧ p.1 ≠ v.id) ∨
      (∃ fs, p = (v.id, fs ++ [v]) ∧ (v.id, fs) ∈ acc) ∨
      (p = (v.id, [v]) ∧ v.id ∉ acc.map Prod.fst) := by
  induction acc with
  | nil =>
    simp only [bucketAdd, List.mem_singleton] at hp
    exact Or.inr (Or.inr ⟨hp, by simp⟩)
  | cons q rest ih =>
    obtain ⟨k, fs⟩ := q
    simp only [List.map_cons, List.nodup_cons] at hnd
    obtain ⟨hknotin, hndrest⟩ := hnd
    by_cases hk : k = v.id
    · subst hk
      simp only [bucketAdd, if_pos rfl] at hp
      rcases List.mem_cons.mp hp with hp | hp
      · exact Or.inr (Or.inl ⟨fs, hp, List.mem_cons_self _ _⟩)
      · have hne : p.1 ≠ v.id := by
          intro hc
          apply hknotin
          rw [← hc]
          exact List.mem_map_of_mem Prod.fst hp
        exact Or.inl ⟨List.mem_cons_of_mem _ hp, hne⟩
    · simp only [bucketAdd, if_neg hk] at hp
      rcases List.mem_cons.mp hp with hp | hp
      · subst hp
        exact Or.inl ⟨List.mem_cons_self _ _, fun hc => hk hc⟩
      · rcases ih hndrest hp with h | h | h
        · exact Or.inl ⟨List.mem_cons_of_mem _ h.1, h.2⟩
        · obtain ⟨fs2, h1, h2⟩ := h
          exact Or.inr (Or.inl ⟨fs2, h1, List.mem_cons_of_mem _ h2⟩)
        · refine Or.inr (Or.inr ⟨h.1, ?_⟩)
          intro hc
          rcases List.mem_cons.mp hc with hc | hc
          · exact hk hc.symm
          · exact h.2 hc

/-- Invariant of the bucketing fold: keys stay distinct, every bucket is
the filter of the files seen so far (`f` abstracts the already-seen
part), and a key is present exactly when its bucket is nonempty. -/
theorem foldl_bucketAdd_inv (infos : List VideoFileInfo) :
    ∀ (acc : List (Int × List VideoFileInfo)) (f : Int → List VideoFileInfo),
    (acc.map Prod.fst).Nodup →
    (∀ p ∈ acc, p.2 = f p.1) →
    (∀ k : Int, k ∈ acc.map Prod.fst ↔ f k ≠ []) →
    ((infos.foldl bucketAdd acc).map Prod.fst).Nodup ∧
      (∀ p ∈ infos.foldl bucketAdd acc,
        p.2 = f p.1 ++ infos.filter (fun v => v.id == p.1)) ∧
      (∀ k : Int, k ∈ (infos.foldl bucketAdd acc).map Prod.fst ↔
        f k ++ infos.filter (fun v => v.id == k) ≠ []) := by
  induction infos with
  | nil =>
    intro acc f hnd hval hkey
    refine ⟨hnd, ?_, ?_⟩
    · intro p hp; simpa using hval p hp
    · intro k; simpa using hkey k
  | cons v rest ih =>
    intro acc f hnd hval hkey
    have hnd2 : ((bucketAdd acc v).map Prod.fst).Nodup := by
      rw [bucketAdd_keys]
      by_cases hmem : v.id ∈ acc.map Prod.fst
      · rwa [if_pos hmem]
      · rw [if_neg hmem]
        simp [List.nodup_append, hnd, hmem]
    have hval2 : ∀ p ∈ bucketAdd acc v,
        p.2 = (fun k => f k ++ if v.id = k then [v] else []) p.1 := by
      intro p hp
      rcases bucketAdd_mem hnd hp with h | h | h
      · have hne : ¬ (v.id = p.1) := fun hc => h.2 hc.symm
        simp only [if_neg hne, List.append_nil]
        exact hval p h.1
      · obtain ⟨fs, hpeq, hin⟩ := h
        have hfs := hval _ hin
        simp only at hfs
        subst hpeq
        simp [hfs]
      · have hf0 : f v.id = [] := by
          by_contra hc
          exact h.2 ((hkey v.id).mpr hc)
        rw [h.1]
        simp [hf0]
    have hkey2 : ∀ k : Int, k ∈ (bucketAdd acc v).map Prod.fst ↔
        (fun k => f k ++ if v.id = k then [v] else []) k ≠ [] := by
      intro k
      rw [bucketAdd_keys]
      by_cases hvk : v.id = k
      · subst hvk
        simp only [if_pos rfl]
        constructor
        · intro _; simp
        · intro _
          by_cases hmem : v.id ∈ acc.map Prod.fst
          · rwa [if_pos hmem]
          · rw [if_neg hmem]; simp
      · simp only [if_neg hvk, List.append_nil]
        by_cases hmem : v.id ∈ acc.map Prod.fst
        · rw [if_pos hmem]; exact hkey k
        · rw [if_neg hmem]
          rw [List.mem_append, List.mem_singleton]
          constructor
          · intro h
            rcases h with h | h
            · exact (hkey k).mp h
            · exact absurd h.symm hvk
          · intro h
            exact Or.inl ((hkey k).mpr h)
    obtain ⟨c1, c2, c3⟩ := ih (bucketAdd acc v) _ hnd2 hval2 hkey2
    have hptw : ∀ k : Int,
        (f k ++ if v.id = k then [v] else []) ++ rest.filter (fun w => w.id == k) =
          f k ++ (v :: rest).filter (fun w => w.id == k) := by
      intro k
      rw [List.filter_cons]
      by_cases hvk : v.id = k
      · simp [hvk]
      · have hb : (v.id == k) = false := by simp [hvk]
        rw [hb]
        simp [hvk]
    refine ⟨by simpa using c1, ?_, ?_⟩
    · intro p hp
      have h2 := c2 p (by simpa using hp)
      simp only at h2
      rw [h2, ← hptw p.1]
    · intro k
      have h3 := c3 k
      simp only at h3
      rw [← hptw k]
      simpa using h3

/-- The buckets built by `parse_files`: distinct keys, each bucket equal
to the id-filter of the parsed list, keys present exactly for nonempty
filters. -/
theorem buckets_spec (infos : List VideoFileInfo) :
    ((infos.foldl bucketAdd []).map Prod.fst).Nodup ∧
      (∀ p ∈ infos.foldl bucketAdd [],
        p.2 = infos.filter (fun v => v.id == p.1)) ∧
      (∀ k : Int, k ∈ (infos.foldl bucketAdd []).map Prod.fst ↔
        infos.filter (fun v => v.id == k) ≠ []) := by
  have h := foldl_bucketAdd_inv infos [] (fun _ => []) (by simp) (by simp) (by simp)
  simpa using h

/-- `mkFileGroup` keeps the bucket key as `pk`. -/
theorem mkFileGroup_pk (p : Int × List VideoFileInfo) : (mkFileGroup p).pk = p.1 := by
  obtain ⟨k, fs⟩ := p
  cases fs <;> rfl

/-- `mkFileGroup` keeps the bucket contents as `files`. -/
theorem mkFileGroup_files (p : Int × List VideoFileInfo) :
    (mkFileGroup p).files = p.2 := by
  obtain ⟨k, fs⟩ := p
  cases fs <;> rfl

/-- `mkFileGroup` takes the timestamp of the first file in the bucket. -/
theorem mkFileGroup_ts {p : Int × List VideoFileInfo} {f : VideoFileInfo}
    {l : List VideoFileInfo} (h : p.2 = f :: l) : (mkFileGroup p).ts = f.ts := by
  obtain ⟨k, fs⟩ := p
  simp only at h
  subst h
  rfl

/-! ## C10: the FileGroup invariant -/

/-- C10: every `FileGroup` returned by `parse_files` has a nonempty
`files` list all of whose members carry the group's own id as their
`id`. -/
theorem C10_group_invariant (names : List String) (gs : List FileGroup)
    (h : parseFiles names = .ok gs) :
    ∀ g ∈ gs, (∀ f ∈ g.files, f.id = g.pk) ∧ g.files ≠ [] := by
  unfold parseFiles at h
  cases hps : parseSorted (List.insertionSort strLe (names.filter globMp4)) with
  | error e => rw [hps] at h; cases h
  | ok infos =>
    rw [hps] at h
    cases h
    intro g hg
    rw [List.mem_insertionSort] at hg
    obtain ⟨p, hpmem, hpeq⟩ := List.mem_map.mp hg
    obtain ⟨hnd, hval, hkey⟩ := buckets_spec infos
    have hfiles : g.files = infos.filter (fun v => v.id == p.1) := by
      rw [← hpeq, mkFileGroup_files]
      exact hval p hpmem
    have hpk : g.pk = p.1 := by rw [← hpeq, mkFileGroup_pk]
    constructor
    · intro f hf
      rw [hfiles] at hf
      have := List.of_mem_filter hf
      rw [hpk]
      simpa using this
    · rw [hfiles]
      apply (hkey p.1).mp
      exact List.mem_map_of_mem Prod.fst hpmem

/-- Concrete directory listing used by several witnesses. -/
def namesW : List String :=
  ["20240703_131044_0417_N_B.MP4", "20240703_131044_0417_N_A.MP4",
   "readme.txt", "20240703_131044_0417_N_C.mp4"]

/-- The records parsed from `namesW`, in discovery (sorted) order. -/
def infosW : List VideoFileInfo :=
  [⟨⟨2024, 7, 3, 13, 10, 44⟩, 417, .normal, .front, "20240703_131044_0417_N_A.MP4"⟩,
   ⟨⟨2024, 7, 3, 13, 10, 44⟩, 417, .normal, .internal, "20240703_131044_0417_N_B.MP4"⟩,
   ⟨⟨2024, 7, 3, 13, 10, 44⟩, 417, .normal, .rear, "20240703_131044_0417_N_C.mp4"⟩]

/-- The single group parsed from `namesW`. -/
def groupW : FileGroup := ⟨⟨2024, 7, 3, 13, 10, 44⟩, 417, infosW⟩

/-- The grouping result for `namesW`. -/
def groupsW : List FileGroup := [groupW]

/-- C10 witness: the invariant holds for the one group parsed from
`namesW`. -/
theorem C10_group_invariant_witness :
    (∀ f ∈ groupW.files, f.id = groupW.pk) ∧ groupW.files ≠ [] :=
  C10_group_invariant namesW groupsW (by decide) groupW
    (List.mem_singleton.mpr rfl)

/-! ## C6: a single malformed filename aborts the scan -/

/-- C6: if any globbed file of the directory fails to parse, then
`parse_files` propagates a parse error for the whole directory: the
result is an `error`, never a partial list of groups. -/
theorem C6_fail_fast (names : List String)
    (hbad : ∃ name, name ∈ names.filter globMp4 ∧ ∃ pe, fromPath name = .error pe) :
    ∃ e, parseFiles names = .error e := by
  obtain ⟨name, hmem, pe, hpe⟩ := hbad
  unfold parseFiles
  cases hps : parseSorted (List.insertionSort strLe (names.filter globMp4)) with
  | error e => exact ⟨e, rfl⟩
  | ok infos =>
    exfalso
    have hin : name ∈ List.insertionSort strLe (names.filter globMp4) := by
      rw [List.mem_insertionSort]
      exact hmem
    obtain ⟨v, hv⟩ := parseSorted_ok_forall hps name hin
    rw [hv] at hpe
    cases hpe

/-- C6 witness: a directory with one well-formed and one malformed mp4
name has no grouping result. -/
theorem C6_fail_fast_witness :
    ∃ e, parseFiles ["20240703_131044_0417_N_A.MP4", "bad.mp4"] = .error e :=
  C6_fail_fast _ ⟨"bad.mp4", by decide, .notEnoughValues 1, by decide⟩

/-! ## Orchestrator lemmas -/

/-- A future's value under any completion schedule that ran its job. -/
theorem lookup_completeJobs (job : FileGroup → Except PyErr String)
    (groups : List FileGroup) (sched : List Nat) (i : Nat) (gi : FileGroup)
    (hmem : i ∈ sched) (hget : groups.get? i = some gi) :
    (completeJobs job groups sched).lookup i = some (job gi) := by
  induction sched with
  | nil => cases hmem
  | cons j rest ih =>
    by_cases hji : j = i
    · subst hji
      simp only [completeJobs, List.filterMap_cons, hget, Option.map_some]
      simp [List.lookup]
    · cases hgj : groups.get? j with
      | none =>
        simp only [completeJobs, List.filterMap_cons, hgj, Option.map_none]
        exact ih (List.mem_of_ne_of_mem (fun hc => hji hc.symm) hmem)
      | some gj =>
        simp only [completeJobs, List.filterMap_cons, hgj, Option.map_some]
        have hbeq : (i == j) = false := by
          simp only [beq_eq_false_iff_ne, ne_eq]
          exact fun hc => hji hc.symm
        simp only [List.lookup, hbeq]
        exact ih (List.mem_of_ne_of_mem (fun hc => hji hc.symm) hmem)

/-- Draining a fully populated store produces each job's outcome in
submission order. -/
theorem collectFutures_go (job : FileGroup → Except PyErr String)
    (store : List (Nat × Except PyErr String)) :
    ∀ (gs : List FileGroup) (k : Nat),
    (∀ i g, gs.get? i = some g → store.lookup (k + i) = some (job g)) →
    (gs.enumFrom k).mapM (fun p => (store.lookup p.1).map (fun r => (p.2, r))) =
      some (gs.map (fun g => (g, job g))) := by
  intro gs
  induction gs with
  | nil => intro k _; rfl
  | cons g t ih =>
    intro k hlk
    have h0 : store.lookup k = some (job g) := by
      have := hlk 0 g rfl
      simpa using this
    simp only [List.enumFrom, List.mapM_cons, h0, Option.map_some]
    rw [ih (k + 1) ?_]
    · rfl
    · intro i gi hget
      have := hlk (i + 1) gi (by simpa using hget)
      have harith : k + (i + 1) = k + 1 + i := by omega
      rwa [harith] at this

/-- Under a schedule that completes every submitted job, the scheduled
orchestrator collects exactly the submission-order outcomes. -/
theorem collectFutures_complete (job : FileGroup → Except PyErr String)
    (groups : List FileGroup) (sched : List Nat)
    (hsched : sched.Perm (List.range groups.length)) :
    collectFutures (completeJobs job groups sched) groups =
      some (groups.map (fun g => (g, job g))) := by
  unfold collectFutures
  rw [show groups.enum = groups.enumFrom 0 from rfl]
  apply collectFutures_go
  intro i g hget
  rw [Nat.zero_add]
  apply lookup_completeJobs _ _ _ _ _ _ hget
  have hlen : i < groups.length := List.get?_eq_some.mp hget |>.1
  exact hsched.mem_iff.mpr (List.mem_range.mpr hlen)

/-- Draining all-successful results yields every pair. -/
theorem drainResults_all_ok (job : FileGroup → Except PyErr String)
    (out : FileGroup → String) :
    ∀ gs : List FileGroup, (∀ g ∈ gs, job g = .ok (out g)) →
    drainResults (gs.map (fun g => (g, job g))) =
      ⟨gs.map (fun g => (g, out g)), none⟩ := by
  intro gs
  induction gs with
  | nil => intro _; rfl
  | cons g t ih =>
    intro hok
    have hg := hok g (List.mem_cons_self _ _)
    simp only [List.map_cons, drainResults, hg]
    rw [ih (fun x hx => hok x (List.mem_cons_of_mem _ hx))]

/-- Draining up to the first failure: every earlier result is yielded in
order, the failing group is logged and its error re-raised, and nothing
after it is consumed. -/
theorem drainResults_first_error (job : FileGroup → Except PyErr String)
    (out : FileGroup → String) (gbad : FileGroup) (e : PyErr) :
    ∀ (pre post : List FileGroup), (∀ g ∈ pre, job g = .ok (out g)) →
    job gbad = .error e →
    drainResults ((pre ++ gbad :: post).map (fun g => (g, job g))) =
      ⟨pre.map (fun g => (g, out g)), some (stitchLogLine gbad e, e)⟩ := by
  intro pre
  induction pre with
  | nil =>
    intro post _ hbad
    simp only [List.nil_append, List.map_cons, drainResults, hbad, List.map_nil]
  | cons g t ih =>
    intro post hok hbad
    have hg := hok g (List.mem_cons_self _ _)
    simp only [List.cons_append, List.map_cons, drainResults, hg]
    rw [ih post (fun x hx => hok x (List.mem_cons_of_mem _ hx)) hbad]

/-! ## C2: results are yielded in submission order -/

/-- C2: for every job outcome function, every group list, every positive
pool size, and every order in which the pool completes the jobs,
`stitch_all` agrees with the canonical submission-order drain, and when
every job succeeds it yields exactly one `(group, output)` pair per
group, in the order of the input list — never in completion order. -/
theorem C2_submission_order (job : FileGroup → Except PyErr String)
    (out : FileGroup → String) (groups : List FileGroup) (mw : Nat)
    (sched : List Nat) (hmw : 0 < mw)
    (hsched : sched.Perm (List.range groups.length))
    (hok : ∀ g ∈ groups, job g = .ok (out g)) :
    stitchAllSched job groups mw sched = some (stitchAll job groups mw) ∧
      stitchAll job groups mw =
        .ok ⟨groups.map (fun g => (g, out g)), none⟩ := by
  have hmw' : ¬ mw = 0 := Nat.pos_iff_ne_zero.mp hmw
  constructor
  · unfold stitchAllSched stitchAll
    rw [if_neg hmw', if_neg hmw', collectFutures_complete job groups sched hsched]
    rfl
  · unfold stitchAll
    rw [if_neg hmw', drainResults_all_ok job out groups hok]

/-- Groups 1, 2, 3 used by the orchestrator witnesses (the `files` lists
are irrelevant to scheduling). -/
def gOne : FileGroup := ⟨⟨2024, 7, 3, 13, 10, 44⟩, 1, []⟩

/-- Second witness group. -/
def gTwo : FileGroup := ⟨⟨2024, 7, 3, 13, 10, 45⟩, 2, []⟩

/-- Third witness group. -/
def gThree : FileGroup := ⟨⟨2024, 7, 3, 13, 10, 46⟩, 3, []⟩

/-- Job outcomes for the C2 witness: every group succeeds. -/
def jobAllOk : FileGroup → Except PyErr String :=
  fun g => .ok ("./out/output_" ++ toString g.pk ++ ".mp4")

/-- C2 witness: groups [1,2,3], pool size 2, and a completion schedule in
which job 2 finishes before job 1 — the yielded sequence is still
(1, 2, 3). -/
theorem C2_submission_order_witness :
    stitchAllSched jobAllOk [gOne, gTwo, gThree] 2 [1, 0, 2] =
        some (stitchAll jobAllOk [gOne, gTwo, gThree] 2) ∧
      stitchAll jobAllOk [gOne, gTwo, gThree] 2 =
        .ok ⟨[(gOne, "./out/output_1.mp4"), (gTwo, "./out/output_2.mp4"),
              (gThree, "./out/output_3.mp4")], none⟩ := by
  have h := C2_submission_order jobAllOk
    (fun g => "./out/output_" ++ toString g.pk ++ ".mp4")
    [gOne, gTwo, gThree] 2 [1, 0, 2] (by decide) (by decide) (by decide)
  exact ⟨h.1, by rw [h.2]; rfl⟩

/-! ## C3: first error aborts the sequence after the earlier yields -/

/-- C3: when the job of some group fails and all earlier jobs succeed,
`stitch_all` yields exactly the earlier groups' pairs in submission
order, prints the log line naming the failing group, and re-raises that
job's error with its identity unchanged; no result of the failing group
or of any later group is ever yielded, and the earlier yields stand. -/
theorem C3_error_policy (job : FileGroup → Except PyErr String)
    (out : FileGroup → String) (pre post : List FileGroup)
    (gbad : FileGroup) (e : PyErr) (mw : Nat) (hmw : 0 < mw)
    (hok : ∀ g ∈ pre, job g = .ok (out g)) (hbad : job gbad = .error e) :
    stitchAll job (pre ++ gbad :: post) mw =
      .ok ⟨pre.map (fun g => (g, out g)), some (stitchLogLine gbad e, e)⟩ := by
  unfold stitchAll
  rw [if_neg (Nat.pos_iff_ne_zero.mp hmw),
    drainResults_first_error job out gbad e pre post hok hbad]

/-- Job outcomes for the C3 witness: group 2 fails, others succeed. -/
def jobTwoFails : FileGroup → Except PyErr String :=
  fun g => if g.pk = 2 then .error (.engine "ffmpeg error (see stderr output for detail)")
    else .ok ("./out/output_" ++ toString g.pk ++ ".mp4")

/-- C3 witness: with groups [1,2,3] and job 2 failing, result 1 is
yielded, then the logged error for group 2 is re-raised; group 3's
result is never yielded. -/
theorem C3_error_policy_witness :
    stitchAll jobTwoFails [gOne, gTwo, gThree] 5 =
      .ok ⟨[(gOne, "./out/output_1.mp4")],
        some (stitchLogLine gTwo (.engine "ffmpeg error (see stderr output for detail)"),
          .engine "ffmpeg error (see stderr output for detail)")⟩ := by
  have h := C3_error_policy jobTwoFails
    (fun g => "./out/output_" ++ toString g.pk ++ ".mp4")
    [gOne] [gThree] gTwo (.engine "ffmpeg error (see stderr output for detail)") 5
    (by decide) (by decide) (by decide)
  rw [show [gOne] ++ gTwo :: [gThree] = [gOne, gTwo, gThree] from rfl] at h
  rw [h]
  rfl

/-! ## C1: shape of the grouping result -/

/-- Combining a weak sort with distinct keys gives a strict sort. -/
theorem pairwise_lt_of_le_ne :
    ∀ {l : List FileGroup}, l.Pairwise (fun a b => a.pk ≤ b.pk) →
      l.Pairwise (fun a b => a.pk ≠ b.pk) →
      l.Pairwise (fun a b => a.pk < b.pk) := by
  intro l
  induction l with
  | nil => intro _ _; exact List.Pairwise.nil
  | cons g t ih =>
    intro hle hne
    obtain ⟨hle1, hle2⟩ := List.pairwise_cons.mp hle
    obtain ⟨hne1, hne2⟩ := List.pairwise_cons.mp hne
    exact List.pairwise_cons.mpr
      ⟨fun b hb => lt_of_le_of_ne (hle1 b hb) (hne1 b hb), ih hle2 hne2⟩

/-- The id filter is nonempty exactly for the ids occurring in the list. -/
theorem filter_id_ne_nil_iff (infos : List VideoFileInfo) (k : Int) :
    infos.filter (fun v => v.id == k) ≠ [] ↔ k ∈ infos.map VideoFileInfo.id := by
  rw [Ne, List.filter_eq_nil_iff, List.mem_map]
  push_neg
  constructor
  · rintro ⟨v, hv, hbeq⟩
    exact ⟨v, hv, by simpa using hbeq⟩
  · rintro ⟨v, hv, hid⟩
    exact ⟨v, hv, by simpa using hid⟩

/-- C1: for a directory whose globbed files all parse, with each
occurring group id owning exactly three files covering all three camera
positions, `parse_files` returns exactly one `FileGroup` per distinct id
(N of them), strictly sorted by ascending group id, each holding exactly
the three files of its id in discovery order, with the group timestamp
taken from its first discovered file. -/
theorem C1_grouping_shape (names : List String) (infos : List VideoFileInfo)
    (N : Nat)
    (hparse : parseSorted (List.insertionSort strLe (names.filter globMp4)) = .ok infos)
    (hN : ((infos.map VideoFileInfo.id).dedup).length = N)
    (hcount : ∀ k ∈ infos.map VideoFileInfo.id,
      (infos.filter (fun v => v.id == k)).length = 3)
    (hpos : ∀ k ∈ infos.map VideoFileInfo.id, ∀ pos : Position,
      ∃ f ∈ infos, f.id = k ∧ f.position = pos) :
    ∃ gs, parseFiles names = .ok gs ∧
      gs.length = N ∧
      gs.Pairwise (fun a b => a.pk < b.pk) ∧
      ∀ g ∈ gs, g.files.length = 3 ∧
        g.files = infos.filter (fun v => v.id == g.pk) ∧
        ∃ f l, g.files = f :: l ∧ g.ts = f.ts := by
  obtain ⟨hnd, hval, hkey⟩ := buckets_spec infos
  refine ⟨List.insertionSort (fun a b => a.pk ≤ b.pk)
    ((infos.foldl bucketAdd []).map mkFileGroup), ?_, ?_, ?_, ?_⟩
  · unfold parseFiles
    rw [hparse]
  · -- length: one group per distinct id
    rw [(List.perm_insertionSort _ _).length_eq, List.length_map, ← hN]
    have hkeysnd : ((infos.foldl bucketAdd []).map Prod.fst).Nodup := hnd
    have hperm : ((infos.foldl bucketAdd []).map Prod.fst).Perm
        ((infos.map VideoFileInfo.id).dedup) := by
      rw [List.perm_ext_iff_of_nodup hkeysnd (List.nodup_dedup _)]
      intro k
      rw [List.mem_dedup, hkey k, filter_id_ne_nil_iff]
    rw [← hperm.length_eq, List.length_map]
  · -- strict ascending order of group ids
    haveI : IsTotal FileGroup (fun a b => a.pk ≤ b.pk) :=
      ⟨fun a b => Int.le_total a.pk b.pk⟩
    haveI : IsTrans FileGroup (fun a b => a.pk ≤ b.pk) :=
      ⟨fun _ _ _ h1 h2 => le_trans h1 h2⟩
    have hsorted := List.sorted_insertionSort (fun a b : FileGroup => a.pk ≤ b.pk)
      ((infos.foldl bucketAdd []).map mkFileGroup)
    have hpkmap : (((infos.foldl bucketAdd []).map mkFileGroup).map FileGroup.pk) =
        (infos.foldl bucketAdd []).map Prod.fst := by
      rw [List.map_map]
      exact List.map_congr_left (fun p _ => mkFileGroup_pk p)
    have hpknd : ((List.insertionSort (fun a b : FileGroup => a.pk ≤ b.pk)
        ((infos.foldl bucketAdd []).map mkFileGroup)).map FileGroup.pk).Nodup := by
      have hp := (List.perm_insertionSort (fun a b : FileGroup => a.pk ≤ b.pk)
        ((infos.foldl bucketAdd []).map mkFileGroup)).map FileGroup.pk
      rw [hp.nodup_iff, hpkmap]
      exact hnd
    exact pairwise_lt_of_le_ne hsorted (List.pairwise_map.mp hpknd)
  · -- each group: three files, the id filter, timestamp of the head
    intro g hg
    rw [List.mem_insertionSort] at hg
    obtain ⟨p, hpmem, hpeq⟩ := List.mem_map.mp hg
    have hfiles : g.files = infos.filter (fun v => v.id == p.1) := by
      rw [← hpeq, mkFileGroup_files]
      exact hval p hpmem
    have hpk : g.pk = p.1 := by rw [← hpeq, mkFileGroup_pk]
    have hkmem : g.pk ∈ infos.map VideoFileInfo.id := by
      rw [hpk, ← filter_id_ne_nil_iff]
      exact (hkey p.1).mp (List.mem_map_of_mem Prod.fst hpmem)
    have hfe : g.files = infos.filter (fun v => v.id == g.pk) := by rw [hfiles, hpk]
    refine ⟨?_, hfe, ?_⟩
    · rw [hfe]
      exact hcount g.pk hkmem
    · have hne : g.files ≠ [] := by
        rw [hfe]
        exact (filter_id_ne_nil_iff infos g.pk).mpr hkmem
      cases hf : g.files with
      | nil => exact absurd hf hne
      | cons f l =>
        refine ⟨f, l, rfl, ?_⟩
        have hp2 : p.2 = f :: l := by
          rw [← mkFileGroup_files p, hpeq, hf]
        rw [← hpeq]
        exact mkFileGroup_ts hp2

/-- C1 witness: the directory `namesW` holds one well-formed group
(id 417, three positions); `parse_files` returns exactly that group with
the expected shape. -/
theorem C1_grouping_shape_witness :
    ∃ gs, parseFiles namesW = .ok gs ∧
      gs.length = 1 ∧
      gs.Pairwise (fun a b => a.pk < b.pk) ∧
      ∀ g ∈ gs, g.files.length = 3 ∧
        g.files = infosW.filter (fun v => v.id == g.pk) ∧
        ∃ f l, g.files = f :: l ∧ g.ts = f.ts :=
  C1_grouping_shape namesW infosW 1 (by decide) (by decide) (by decide)
    (by decide)


/-! ## C9 lemmas -/

theorem isDig_iff {c : Char} : isDig c = true ↔ 48 ≤ c.toNat ∧ c.toNat ≤ 57 := by
  simp [isDig]

theorem firstAlt_dayAlts {d1 d2 : Char}
    (h1 : isDig d1 = true) (h2 : isDig d2 = true)
    (hlo : 1 ≤ 10 * dv d1 + dv d2) (hhi : 10 * dv d1 + dv d2 ≤ 31) :
    firstAlt dayAlts [d1, d2] = some (10 * dv d1 + dv d2, []) := by
  rw [isDig_iff] at h1 h2
  have e1 : dv d1 = d1.toNat - 48 := rfl
  have e2 : dv d2 = d2.toNat - 48 := rfl
  simp only [dayAlts, firstAlt]
  rcases Nat.lt_or_ge d1.toNat 49 with h49 | h49
  · rw [if_neg (by omega), if_neg (by omega),
      if_pos (show d1.toNat = 48 ∧ 49 ≤ d2.toNat ∧ d2.toNat ≤ 57 by omega)]
    dsimp only
    simp only [Option.some.injEq, Prod.mk.injEq]
    exact ⟨by omega, trivial⟩
  · rcases Nat.lt_or_ge d1.toNat 51 with h51 | h51
    · rw [if_neg (by omega), if_pos ⟨by omega, by omega, isDig_iff.mpr ⟨by omega, by omega⟩⟩]
    · rw [if_pos (show d1.toNat = 51 ∧ 48 ≤ d2.toNat ∧ d2.toNat ≤ 49 by omega)]
      dsimp only
      simp only [Option.some.injEq, Prod.mk.injEq]
      exact ⟨by omega, trivial⟩

theorem matchThen_month {m1 m2 d1 d2 : Char}
    (hm1 : isDig m1 = true) (hm2 : isDig m2 = true)
    (hd1 : isDig d1 = true) (hd2 : isDig d2 = true)
    (hmlo : 1 ≤ 10 * dv m1 + dv m2) (hmhi : 10 * dv m1 + dv m2 ≤ 12)
    (hdlo : 1 ≤ 10 * dv d1 + dv d2) (hdhi : 10 * dv d1 + dv d2 ≤ 31) :
    matchThen monthAlts (firstAlt dayAlts) [m1, m2, d1, d2] =
      some (10 * dv m1 + dv m2, 10 * dv d1 + dv d2, []) := by
  have hday := firstAlt_dayAlts hd1 hd2 hdlo hdhi
  rw [isDig_iff] at hm1 hm2
  have e1 : dv m1 = m1.toNat - 48 := rfl
  have e2 : dv m2 = m2.toNat - 48 := rfl
  simp only [monthAlts, matchThen]
  rcases Nat.lt_or_ge m1.toNat 49 with h49 | h49
  · rw [if_neg (by omega),
      if_pos (show m1.toNat = 48 ∧ 49 ≤ m2.toNat ∧ m2.toNat ≤ 57 by omega)]
    dsimp only
    rw [hday]
    dsimp only
    simp only [Option.some.injEq, Prod.mk.injEq]
    exact ⟨by omega, trivial⟩
  · rw [if_pos (show m1.toNat = 49 ∧ 48 ≤ m2.toNat ∧ m2.toNat ≤ 50 by omega)]
    dsimp only
    rw [hday]
    dsimp only
    simp only [Option.some.injEq, Prod.mk.injEq]
    exact ⟨by omega, trivial⟩

theorem matchYear_cons {a b c d : Char} {rest : List Char}
    (h1 : isDig a = true) (h2 : isDig b = true) (h3 : isDig c = true)
    (h4 : isDig d = true) :
    matchYear (a :: b :: c :: d :: rest) =
      some (1000 * dv a + 100 * dv b + 10 * dv c + dv d, rest) := by
  unfold matchYear
  dsimp only
  rw [if_pos ⟨h1, h2, h3, h4⟩]

theorem firstAlt_secondAlts {s1 s2 : Char}
    (h1 : isDig s1 = true) (h2 : isDig s2 = true)
    (hhi : 10 * dv s1 + dv s2 ≤ 59) :
    firstAlt secondAlts [s1, s2] = some (10 * dv s1 + dv s2, []) := by
  rw [isDig_iff] at h1 h2
  have e1 : dv s1 = s1.toNat - 48 := rfl
  have e2 : dv s2 = s2.toNat - 48 := rfl
  simp only [secondAlts, firstAlt]
  rw [if_neg (by omega),
    if_pos (show 48 ≤ s1.toNat ∧ s1.toNat ≤ 53 ∧ isDig s2 = true from
      ⟨by omega, by omega, isDig_iff.mpr ⟨by omega, by omega⟩⟩)]

theorem matchThen_minute {m1 m2 s1 s2 : Char}
    (hm1 : isDig m1 = true) (hm2 : isDig m2 = true)
    (hs1 : isDig s1 = true) (hs2 : isDig s2 = true)
    (hmhi : 10 * dv m1 + dv m2 ≤ 59) (hshi : 10 * dv s1 + dv s2 ≤ 59) :
    matchThen minuteAlts (firstAlt secondAlts) [m1, m2, s1, s2] =
      some (10 * dv m1 + dv m2, 10 * dv s1 + dv s2, []) := by
  have hsec := firstAlt_secondAlts hs1 hs2 hshi
  rw [isDig_iff] at hm1 hm2
  have e1 : dv m1 = m1.toNat - 48 := rfl
  have e2 : dv m2 = m2.toNat - 48 := rfl
  simp only [minuteAlts, matchThen]
  rw [if_pos (show 48 ≤ m1.toNat ∧ m1.toNat ≤ 53 ∧ isDig m2 = true from
    ⟨by omega, by omega, isDig_iff.mpr ⟨by omega, by omega⟩⟩)]
  dsimp only
  rw [hsec]

theorem matchHMS_of_valid {h1 h2 m1 m2 s1 s2 : Char}
    (hh1 : isDig h1 = true) (hh2 : isDig h2 = true)
    (hm1 : isDig m1 = true) (hm2 : isDig m2 = true)
    (hs1 : isDig s1 = true) (hs2 : isDig s2 = true)
    (hhhi : 10 * dv h1 + dv h2 ≤ 23)
    (hmhi : 10 * dv m1 + dv m2 ≤ 59) (hshi : 10 * dv s1 + dv s2 ≤ 59) :
    matchHMS [h1, h2, m1, m2, s1, s2] =
      some (10 * dv h1 + dv h2, 10 * dv m1 + dv m2, 10 * dv s1 + dv s2, []) := by
  have hms := matchThen_minute hm1 hm2 hs1 hs2 hmhi hshi
  rw [isDig_iff] at hh1 hh2
  have e1 : dv h1 = h1.toNat - 48 := rfl
  have e2 : dv h2 = h2.toNat - 48 := rfl
  unfold matchHMS
  simp only [hourAlts, matchThen2]
  rcases Nat.lt_or_ge h1.toNat 50 with h50 | h50
  · rw [if_neg (by omega),
      if_pos (show 48 ≤ h1.toNat ∧ h1.toNat ≤ 49 ∧ isDig h2 = true from
        ⟨by omega, by omega, isDig_iff.mpr ⟨by omega, by omega⟩⟩)]
    dsimp only
    rw [hms]
  · rw [if_pos (show h1.toNat = 50 ∧ 48 ≤ h2.toNat ∧ h2.toNat ≤ 51 by omega)]
    dsimp only
    rw [hms]
    dsimp only
    simp only [Option.some.injEq, Prod.mk.injEq]
    exact ⟨by omega, trivial⟩



theorem exists_eight {α : Type} (l : List α) (h : l.length = 8) :
    ∃ a b c d e f g i, l = [a, b, c, d, e, f, g, i] := by
  rcases l with _ | ⟨a, l⟩
  · simp at h
  rcases l with _ | ⟨b, l⟩
  · simp at h
  rcases l with _ | ⟨c, l⟩
  · simp at h
  rcases l with _ | ⟨d, l⟩
  · simp at h
  rcases l with _ | ⟨e, l⟩
  · simp at h
  rcases l with _ | ⟨f, l⟩
  · simp at h
  rcases l with _ | ⟨g, l⟩
  · simp at h
  rcases l with _ | ⟨i, l⟩
  · simp at h
  rcases l with _ | ⟨x, l⟩
  · exact ⟨a, b, c, d, e, f, g, i, rfl⟩
  · simp only [List.length_cons] at h
    omega

theorem exists_six {α : Type} (l : List α) (h : l.length = 6) :
    ∃ a b c d e f, l = [a, b, c, d, e, f] := by
  rcases l with _ | ⟨a, l⟩
  · simp at h
  rcases l with _ | ⟨b, l⟩
  · simp at h
  rcases l with _ | ⟨c, l⟩
  · simp at h
  rcases l with _ | ⟨d, l⟩
  · simp at h
  rcases l with _ | ⟨e, l⟩
  · simp at h
  rcases l with _ | ⟨f, l⟩
  · simp at h
  rcases l with _ | ⟨x, l⟩
  · exact ⟨a, b, c, d, e, f, rfl⟩
  · simp only [List.length_cons] at h
    omega



theorem daysInMonth_le (y m : Nat) : daysInMonth y m ≤ 31 := by
  unfold daysInMonth
  split
  · split <;> omega
  · split <;> omega

theorem strptimeDate_ok {s : String} (h : isStrictDate s = true) :
    ∃ r, strptimeDate s = .ok r := by
  unfold isStrictDate at h
  split at h
  next a b c d m1 m2 d1 d2 heq =>
    simp only [Bool.and_eq_true, decide_eq_true_eq, and_assoc] at h
    obtain ⟨ha, hb, hc, hd, hm1, hm2, hd1, hd2, hy, hmlo, hmhi, hdlo, hdhi⟩ := h
    have hdhi31 : 10 * dv d1 + dv d2 ≤ 31 := le_trans hdhi (daysInMonth_le _ _)
    unfold strptimeDate matchYMD
    rw [heq, matchYear_cons ha hb hc hd]
    dsimp only
    rw [matchThen_month hm1 hm2 hd1 hd2 hmlo hmhi hdlo hdhi31]
    dsimp only
    rw [if_neg (by simp), if_neg (by omega), if_neg (by omega)]
    exact ⟨_, rfl⟩
  next => simp at h

theorem strptimeTime_ok {s : String} (h : isStrictTime s = true) :
    ∃ r, strptimeTime s = .ok r := by
  unfold isStrictTime at h
  split at h
  next h1 h2 m1 m2 s1 s2 heq =>
    simp only [Bool.and_eq_true, decide_eq_true_eq, and_assoc] at h
    obtain ⟨hh1, hh2, hm1, hm2, hs1, hs2, hhhi, hmhi, hshi⟩ := h
    unfold strptimeTime
    rw [heq, matchHMS_of_valid hh1 hh2 hm1 hm2 hs1 hs2 hhhi hmhi hshi]
    dsimp only
    rw [if_neg (by simp), if_neg (by omega)]
    exact ⟨_, rfl⟩
  next => simp at h

theorem dropWhile_ws_of_digits {l : List Char} (hall : l.all isDig = true) :
    l.dropWhile isPyWs = l := by
  cases l with
  | nil => rfl
  | cons c t =>
    have hc : isDig c = true := by
      simp only [List.all_cons, Bool.and_eq_true] at hall
      exact hall.1
    have hws : isPyWs c = false := by
      rw [isDig_iff] at hc
      simp only [isPyWs, decide_eq_false_iff_not]
      omega
    simp [List.dropWhile_cons, hws]

theorem intParse_ok {s : String} (h : isStrictGroupId s = true) :
    ∃ n, intParse s = .ok n := by
  unfold isStrictGroupId at h
  simp only [Bool.and_eq_true, Bool.not_eq_true'] at h
  obtain ⟨hne, hall⟩ := h
  have hT : ((s.toList.dropWhile isPyWs).reverse.dropWhile isPyWs).reverse = s.toList := by
    rw [dropWhile_ws_of_digits hall,
      dropWhile_ws_of_digits (by rwa [List.all_reverse]), List.reverse_reverse]
  unfold intParse
  rw [hT]
  cases hl : s.toList with
  | nil => rw [hl] at hne; simp at hne
  | cons c t =>
    have hcd : isDig c = true := by
      rw [hl] at hall
      simp only [List.all_cons, Bool.and_eq_true] at hall
      exact hall.1
    have hplus : ¬ (c = '+') := by
      intro hc
      subst hc
      exact absurd hcd (by decide)
    have hminus : ¬ (c = '-') := by
      intro hc
      subst hc
      exact absurd hcd (by decide)
    dsimp only
    rw [if_neg hplus, if_neg hminus]
    rw [if_neg ?_]
    · exact ⟨_, rfl⟩
    · rintro (habs | habs)
      · simp at habs
      · rw [← hl] at habs
        exact habs hall

/-- The parse result without the `file` field (everything derived from
the stem alone). -/
def stripFile (v : VideoFileInfo) : DateTime × Int × VideoType × Position :=
  (v.ts, v.id, v.videoType, v.position)

theorem videoType_ofValue_ok {s : String} {vt : VideoType}
    (h : VideoType.ofValue s = .ok vt) : s = "N" ∨ s = "E" ∨ s = "P" := by
  unfold VideoType.ofValue at h
  by_cases h1 : s = "N"
  · exact Or.inl h1
  by_cases h2 : s = "E"
  · exact Or.inr (Or.inl h2)
  by_cases h3 : s = "P"
  · exact Or.inr (Or.inr h3)
  rw [if_neg h1, if_neg h2, if_neg h3] at h
  cases h

theorem position_ofValue_ok {s : String} {p : Position}
    (h : Position.ofValue s = .ok p) : s = "A" ∨ s = "B" ∨ s = "C" := by
  unfold Position.ofValue at h
  by_cases h1 : s = "A"
  · exact Or.inl h1
  by_cases h2 : s = "B"
  · exact Or.inr (Or.inl h2)
  by_cases h3 : s = "C"
  · exact Or.inr (Or.inr h3)
  rw [if_neg h1, if_neg h2, if_neg h3] at h
  cases h

/-- C9: parsing is total on strictly schema-valid paths, and outside the
attached path itself it is a deterministic function of the stem: equal
stems give equal parse results (so re-parsing the same path twice gives
identical records). -/
theorem C9_parse_total_deterministic :
    (∀ p, strictSchemaValid (pathStem p) = true → (fromPath p).isOk = true) ∧
      (∀ p q, pathStem p = pathStem q →
        (fromPath p).map stripFile = (fromPath q).map stripFile) := by
  constructor
  · intro p h
    unfold strictSchemaValid at h
    split at h
    next dTok tTok gTok vtTok posTok heq =>
      simp only [Bool.and_eq_true] at h
      obtain ⟨⟨⟨⟨hdate, htime⟩, hgid⟩, hvt⟩, hpos⟩ := h
      unfold fromPath parseStem
      rw [heq]
      dsimp only
      obtain ⟨n, hn⟩ := intParse_ok hgid
      obtain ⟨rd, hrd⟩ := strptimeDate_ok hdate
      obtain ⟨y, mo, dd⟩ := rd
      obtain ⟨rt, hrt⟩ := strptimeTime_ok htime
      obtain ⟨hh, mi, ss⟩ := rt
      rw [hn]
      dsimp only
      rw [hrd]
      dsimp only
      rw [hrt]
      dsimp only
      have hvt' : (vtTok = "N" ∨ vtTok = "E") ∨ vtTok = "P" := by
        simpa using hvt
      have hpos' : (posTok = "A" ∨ posTok = "B") ∨ posTok = "C" := by
        simpa using hpos
      rcases hvt' with hv2 | hv
      rotate_left
      all_goals first
        | (subst hv
           rcases hpos' with (hp | hp) | hp <;> subst hp <;> rfl)
        | (rcases hv2 with hv | hv <;> subst hv <;>
            rcases hpos' with (hp | hp) | hp <;> subst hp <;> rfl)
    next => simp at h
  · intro p q h
    unfold fromPath
    rw [h]
    cases parseStem (pathStem q) <;> rfl


/-- C9 witness: the canonical schema-valid name parses successfully, and
two paths in different directories with the same stem parse to the same
record up to the attached path. -/
theorem C9_parse_total_deterministic_witness :
    strictSchemaValid (pathStem "20240703_131044_0417_N_A.MP4") = true ∧
      (fromPath "20240703_131044_0417_N_A.MP4").isOk = true ∧
      (fromPath "a/20240703_131044_0417_N_A.MP4").map stripFile =
        (fromPath "b/20240703_131044_0417_N_A.MP4").map stripFile :=
  ⟨by decide,
   C9_parse_total_deterministic.1 "20240703_131044_0417_N_A.MP4" (by decide),
   C9_parse_total_deterministic.2 "a/20240703_131044_0417_N_A.MP4"
     "b/20240703_131044_0417_N_A.MP4" (by decide)⟩

/-- C4 (amended): whenever the stem fails one of the code's own checks —
token count different from five, a group-id token rejected by `int()`, a
date or time token rejected by the (lenient) `strptime` patterns, or a
type/position letter outside `{N,E,P}`/`{A,B,C}` — the parse fails with
a `ValueError` and no record is returned.  The error carries a reason
but not the offending path, and `strptime`/`int` accept some stems that
deviate from the strict five-token schema (see the counterexample). -/
theorem C4_fail_closed (p : String)
    (hfail : match splitTokens (pathStem p) with
      | [dTok, tTok, gTok, vtTok, posTok] =>
          (intParse gTok).isOk = false ∨ (strptimeDate dTok).isOk = false ∨
            (strptimeTime tTok).isOk = false ∨
            (vtTok ≠ "N" ∧ vtTok ≠ "E" ∧ vtTok ≠ "P") ∨
            (posTok ≠ "A" ∧ posTok ≠ "B" ∧ posTok ≠ "C")
      | toks => toks.length ≠ 5) :
    ∃ e, fromPath p = .error e := by
  unfold fromPath parseStem
  rcases hsp : splitTokens (pathStem p) with _ |
    ⟨t1, _ | ⟨t2, _ | ⟨t3, _ | ⟨t4, _ | ⟨t5, _ | ⟨t6, rest⟩⟩⟩⟩⟩⟩
  · exact ⟨_, rfl⟩
  · exact ⟨_, rfl⟩
  · exact ⟨_, rfl⟩
  · exact ⟨_, rfl⟩
  · exact ⟨_, rfl⟩
  · -- exactly five tokens: the disjunction names a failing check
    rw [hsp] at hfail
    dsimp only at hfail
    dsimp only
    cases hint : intParse t3 with
    | error e => exact ⟨e, rfl⟩
    | ok n =>
      cases hdt : strptimeDate t1 with
      | error e => exact ⟨e, rfl⟩
      | ok rd =>
        obtain ⟨y, mo, dd⟩ := rd
        cases htt : strptimeTime t2 with
        | error e => exact ⟨e, rfl⟩
        | ok rt =>
          obtain ⟨hh, mi, ss⟩ := rt
          cases hv : VideoType.ofValue t4 with
          | error e => exact ⟨e, rfl⟩
          | ok vt =>
            cases hp : Position.ofValue t5 with
            | error e => exact ⟨e, rfl⟩
            | ok pos =>
              exfalso
              rcases hfail with h | h | h | h | h
              · rw [hint] at h; cases h
              · rw [hdt] at h; cases h
              · rw [htt] at h; cases h
              · rcases videoType_ofValue_ok hv with hc | hc | hc
                · exact h.1 hc
                · exact h.2.1 hc
                · exact h.2.2 hc
              · rcases position_ofValue_ok hp with hc | hc | hc
                · exact h.1 hc
                · exact h.2.1 hc
                · exact h.2.2 hc
  · -- six or more tokens
    refine ⟨.tooManyValues, ?_⟩
    dsimp only
    rw [if_neg (by simp only [List.length_cons]; omega)]
    rfl

/-- C4 witness: a stem with an invalid recording-type letter is rejected
by the parser. -/
theorem C4_fail_closed_witness :
    ∃ e, fromPath "20240703_131044_0417_X_A.mp4" = .error e :=
  C4_fail_closed "20240703_131044_0417_X_A.mp4"
    (show (intParse "0417").isOk = false ∨ (strptimeDate "20240703").isOk = false ∨
        (strptimeTime "131044").isOk = false ∨
        ("X" ≠ "N" ∧ "X" ≠ "E" ∧ "X" ≠ "P") ∨
        ("A" ≠ "A" ∧ "A" ≠ "B" ∧ "A" ≠ "C") from by decide)

/-- C4 counterexample to the claim as stated: the stem
`202473_131044_0417_N_A` deviates from the `YYYYMMDD` schema (its date
token has six digits), yet the parser accepts it (`strptime` matches
one-digit month and day), so not every deviation fails; and the error
raised for the malformed name `bad.mp4` carries a reason but does not
contain the offending path. -/
theorem C4_counterexample :
    strictSchemaValid (pathStem "202473_131044_0417_N_A.mp4") = false ∧
      (fromPath "202473_131044_0417_N_A.mp4").isOk = true ∧
      fromPath "bad.mp4" = .error (.notEnoughValues 1) ∧
      ParseErr.message (.notEnoughValues 1) =
        "not enough values to unpack (expected 5, got 1)" ∧
      occursIn "bad.mp4" (ParseErr.message (.notEnoughValues 1)) = false := by
  decide

end Converter

